import Mathlib

/-!
Verification of the WAV/MIME core of the TTS repository (src/TTS-gemini.ts).

JavaScript strings are modelled as List Char.  JavaScript numbers are
modelled exactly: integers as Int/Nat and possibly-fractional values as
rationals; the special not-a-number value produced by a failed parseInt
is modelled as the none case of an Option.  All values arising in the
verified regime are far below 2^53, where JavaScript doubles are exact.
-/

namespace TTS

/-- Decimal digit test, matching the digits accepted by a radix-10
parseInt call (code points 48 to 57). -/
def isDigitChar (c : Char) : Bool :=
  48 ≤ c.toNat && c.toNat ≤ 57

/-- The WhiteSpace/LineTerminator set used by String.prototype.trim and by
parseInt when skipping leading space: tab, LF, VT, FF, CR, space, NBSP,
Ogham space mark, the en-quad..hair-space block, line/paragraph separator,
narrow NBSP, medium mathematical space, ideographic space, and ZWNBSP. -/
def isJsWhite (c : Char) : Bool :=
  c.toNat = 9 || c.toNat = 10 || c.toNat = 11 || c.toNat = 12 || c.toNat = 13 ||
  c.toNat = 32 || c.toNat = 160 || c.toNat = 5760 ||
  (8192 ≤ c.toNat && c.toNat ≤ 8202) ||
  c.toNat = 8232 || c.toNat = 8233 || c.toNat = 8239 || c.toNat = 8287 ||
  c.toNat = 12288 || c.toNat = 65279

/-- Removal of trailing JS whitespace (the right half of trim). -/
def trimRight (l : List Char) : List Char :=
  (l.reverse.dropWhile isJsWhite).reverse

/-- The JavaScript s.trim() operation: leading and trailing whitespace
removed. -/
def jsTrim (l : List Char) : List Char :=
  trimRight (l.dropWhile isJsWhite)

/-- The JavaScript s.split(sep) operation for a one-character separator:
the empty string splits to one empty piece, and every occurrence of the
separator starts a new piece. -/
def jsSplit (sep : Char) : List Char → List (List Char)
  | [] => [[]]
  | c :: cs =>
    if c = sep then [] :: jsSplit sep cs
    else
      match jsSplit sep cs with
      | [] => [[c]]
      | h :: t => (c :: h) :: t

/-- Value of a list of decimal digits, most significant first. -/
def decVal (ds : List Char) : Nat :=
  ds.foldl (fun a c => 10 * a + (c.toNat - 48)) 0

/-- The sign-and-digits phase of parseInt, applied after leading
whitespace has been skipped: one optional sign, then the longest prefix
of decimal digits; an empty digit prefix means not-a-number (none). -/
def jsParseIntCore (t : List Char) : Option Int :=
  if t.head? = some '-' then
    if t.tail.takeWhile isDigitChar = [] then none
    else some (-(decVal (t.tail.takeWhile isDigitChar) : Int))
  else if t.head? = some '+' then
    if t.tail.takeWhile isDigitChar = [] then none
    else some ((decVal (t.tail.takeWhile isDigitChar) : Int))
  else
    if t.takeWhile isDigitChar = [] then none
    else some ((decVal (t.takeWhile isDigitChar) : Int))

/-- The JavaScript parseInt(s, 10) call: skip leading whitespace, accept
one optional sign, then read the longest prefix of decimal digits; the
result is not-a-number (modelled as none) when that prefix is empty. -/
def jsParseInt (l : List Char) : Option Int :=
  jsParseIntCore (l.dropWhile isJsWhite)

/-- parseInt applied to a value that may be undefined: the undefined case
stringifies to a non-numeric word, so it yields not-a-number. -/
def jsParseIntOpt : Option (List Char) → Option Int
  | none => none
  | some v => jsParseInt v

/-- The JavaScript s.startsWith(c) call for a one-character argument. -/
def jsStartsWith (l : List Char) (c : Char) : Bool :=
  l.head? = some c

/-- The WavConversionOptions record of src/TTS-gemini.ts lines 146-150.
A sample rate that is not-a-number (from an unparseable rate parameter)
is the none case. -/
structure WavConversionOptions where
  numChannels : Int
  sampleRate : Option Int
  bitsPerSample : Int
deriving DecidableEq, Repr

/-- The defaults installed at lines 164-168: one channel, 16000 Hz,
16 bits per sample. -/
def defaultOptions : WavConversionOptions :=
  { numChannels := 1, sampleRate := some 16000, bitsPerSample := 16 }

/-- Line 161: mimeType.split(semicolon) with every piece trimmed. -/
def segsOf (s : List Char) : List (List Char) :=
  (jsSplit ';' s).map jsTrim

/-- Line 161: the first piece, destructured as fileType. -/
def fileTypeOf (s : List Char) : List Char :=
  (segsOf s).headD []

/-- Line 161: the remaining pieces, destructured as params. -/
def paramsOf (s : List Char) : List (List Char) :=
  (segsOf s).tail

/-- Line 162: the second component of fileType.split(slash); none models
the undefined value when there is no slash. -/
def formatOf (s : List Char) : Option (List Char) :=
  (jsSplit '/' (fileTypeOf s))[1]?

/-- Line 178: param.split(equals) with every piece trimmed. -/
def kvOf (p : List Char) : List (List Char) :=
  (jsSplit '=' p).map jsTrim

/-- Line 178: the first piece of the key/value split. -/
def keyOf (p : List Char) : List Char :=
  (kvOf p).headD []

/-- Line 178: the second piece of the key/value split, undefined (none)
when the parameter has no equals sign. -/
def valueOf (p : List Char) : Option (List Char) :=
  (kvOf p)[1]?

/-- The characters of the literal key rate compared at line 179. -/
def rateKey : List Char := ['r', 'a', 't', 'e']

/-- Lines 170-175: when the subtype exists and starts with L, parse the
rest as an integer and, if that parse succeeded, override bitsPerSample. -/
def applyFormat (o : WavConversionOptions) (s : List Char) : WavConversionOptions :=
  match formatOf s with
  | none => o
  | some f =>
    if jsStartsWith f 'L' then
      match jsParseInt (f.drop 1) with
      | some b => { o with bitsPerSample := b }
      | none => o
    else o

/-- Lines 177-182: one iteration of the parameter loop; a rate key
overwrites sampleRate with the parse result even when that result is
not-a-number. -/
def applyRate (o : WavConversionOptions) (p : List Char) : WavConversionOptions :=
  if keyOf p = rateKey then { o with sampleRate := jsParseIntOpt (valueOf p) } else o

/-- The parseMimeType function of src/TTS-gemini.ts lines 160-185. -/
def parseMimeType (s : List Char) : WavConversionOptions :=
  (paramsOf s).foldl applyRate (applyFormat defaultOptions s)

/-- The parameters whose trimmed key equals rate, in order. -/
def rateParams (s : List Char) : List (List Char) :=
  (paramsOf s).filter (fun p => decide (keyOf p = rateKey))

/-- JavaScript multiplication on possibly-not-a-number values: any
not-a-number operand makes the product not-a-number. -/
def jsMul : Option ℚ → Option ℚ → Option ℚ
  | some a, some b => some (a * b)
  | _, _ => none

/-- JavaScript division on possibly-not-a-number values, used here only
with the nonzero literal divisor 8. -/
def jsDiv : Option ℚ → Option ℚ → Option ℚ
  | some a, some b => some (a / b)
  | _, _ => none

/-- The two little-endian bytes of a 16-bit value. -/
def u16Bytes (n : Nat) : List Nat :=
  [n % 256, n / 256 % 256]

/-- The four little-endian bytes of a 32-bit value. -/
def u32Bytes (n : Nat) : List Nat :=
  [n % 256, n / 256 % 256, n / 65536 % 256, n / 16777216 % 256]

/-- The Node Buffer writeUInt16LE call: a value below 0 or above 65535
raises a range error (none); not-a-number passes the range check and every
byte store coerces it to 0; an in-range value is truncated toward zero and
stored in two little-endian bytes. -/
def writeUInt16LE (v : Option ℚ) : Option (List Nat) :=
  match v with
  | none => some [0, 0]
  | some q => if q < 0 ∨ 65535 < q then none else some (u16Bytes ⌊q⌋.toNat)

/-- The Node Buffer writeUInt32LE call: a value below 0 or above
4294967295 raises a range error (none); not-a-number stores four zero
bytes; an in-range value is truncated toward zero and stored in four
little-endian bytes. -/
def writeUInt32LE (v : Option ℚ) : Option (List Nat) :=
  match v with
  | none => some [0, 0, 0, 0]
  | some q => if q < 0 ∨ 4294967295 < q then none else some (u32Bytes ⌊q⌋.toNat)

/-- The createWavHeader function of src/TTS-gemini.ts lines 187-215.
The writes cover offsets 0..43 contiguously and in order, so the
resulting buffer is the concatenation of the written chunks: RIFF (0),
ChunkSize (4), WAVE (8), fmt-space (12), Subchunk1Size (16),
AudioFormat (20), NumChannels (22), SampleRate (24), ByteRate (28),
BlockAlign (32), BitsPerSample (34), data (36), Subchunk2Size (40).
A failing write raises, modelled by none. -/
def createWavHeader (dataLength : Nat) (o : WavConversionOptions) : Option (List Nat) :=
  let sr : Option ℚ := o.sampleRate.map (fun i : Int => (i : ℚ))
  let byteRate : Option ℚ :=
    jsDiv (jsMul (jsMul sr (some (o.numChannels : ℚ))) (some (o.bitsPerSample : ℚ))) (some 8)
  let blockAlign : Option ℚ :=
    jsDiv (jsMul (some (o.numChannels : ℚ)) (some (o.bitsPerSample : ℚ))) (some 8)
  (writeUInt32LE (some ((36 : ℚ) + (dataLength : ℚ)))).bind fun chunkSize =>
  (writeUInt32LE (some 16)).bind fun sub1Size =>
  (writeUInt16LE (some 1)).bind fun audioFmt =>
  (writeUInt16LE (some (o.numChannels : ℚ))).bind fun nch =>
  (writeUInt32LE sr).bind fun srBytes =>
  (writeUInt32LE byteRate).bind fun brBytes =>
  (writeUInt16LE blockAlign).bind fun baBytes =>
  (writeUInt16LE (some (o.bitsPerSample : ℚ))).bind fun bpsBytes =>
  (writeUInt32LE (some (dataLength : ℚ))).bind fun dszBytes =>
  some ([82, 73, 70, 70] ++ chunkSize ++ [87, 65, 86, 69] ++ [102, 109, 116, 32] ++
    sub1Size ++ audioFmt ++ nch ++ srBytes ++ brBytes ++ baBytes ++ bpsBytes ++
    [100, 97, 116, 97] ++ dszBytes)

/-- The Buffer.concat([wavHeader, buffer]) call at line 157: the container
assembler, a pure concatenation of header and payload. -/
def assembleWav (header payload : List Nat) : List Nat :=
  header ++ payload

/-- The convertToWav function of lines 152-158, taking the already
base64-decoded payload bytes: parse the descriptor, synthesize the header
for the payload length, and concatenate. -/
def convertToWav (payload : List Nat) (mimeType : List Char) : Option (List Nat) :=
  (createWavHeader payload.length (parseMimeType mimeType)).map
    (fun h => assembleWav h payload)

/-- Decimal numeral construction, structurally recursive on a fuel bound
so that it evaluates inside the kernel. -/
def decReprAux : Nat → Nat → List Char
  | 0, _ => []
  | fuel + 1, n =>
    if n < 10 then [Char.ofNat (48 + n)]
    else decReprAux fuel (n / 10) ++ [Char.ofNat (48 + n % 10)]

/-- The decimal numeral of a natural number, most significant digit
first. -/
def decRepr (n : Nat) : List Char := decReprAux (n + 1) n

/-- The command-line arguments extracted by getArgs (lines 70-80). -/
structure Args where
  content : List Char
  tone : Option (List Char)
deriving DecidableEq, Repr

/-- The two fatal configuration failures of the driver prologue. -/
inductive CliError where
  | missingContent
  | missingApiKey
deriving DecidableEq, Repr

/-- The getArgs function of lines 70-80: positional argument 2 of
process.argv is the content, argument 3 the optional tone; a missing,
empty, or blank-after-trim content throws the usage error. -/
def getArgs (argv : List (List Char)) : Except CliError Args :=
  match argv.get? 2 with
  | none => .error .missingContent
  | some c =>
    if jsTrim c = [] then .error .missingContent
    else .ok { content := jsTrim c, tone := (argv.get? 3).map jsTrim }

/-- The DEFAULT_TONE constant of line 63. -/
def DEFAULT_TONE : List Char := "happy".toList

/-- The buildPrompt function of lines 65-68: a blank or absent tone falls
back to the default tone. -/
def buildPrompt (content : List Char) (tone : Option (List Char)) : List Char :=
  let resolvedTone :=
    match tone with
    | some t => if jsTrim t = [] then DEFAULT_TONE else jsTrim t
    | none => DEFAULT_TONE
  "Read ".toList ++ resolvedTone ++ " tone, talk in spanish:\n".toList ++ content

/-- The request that main is about to send when it reaches the
generateContent call at line 118: the credential and the prompt text. -/
structure PreparedRequest where
  apiKey : List Char
  prompt : List Char
deriving DecidableEq, Repr

/-- The prologue of main (lines 82-122) up to the point where the network
request is issued: getArgs runs first, then the credential check; an error
result means the process terminates before the request value exists, hence
before any network call and before any file is written (all file writes in
main occur only while processing the awaited response). -/
def mainUntilRequest (argv : List (List Char)) (geminiApiKey : Option (List Char)) :
    Except CliError PreparedRequest :=
  match getArgs argv with
  | .error e => .error e
  | .ok args =>
    match geminiApiKey with
    | none => .error .missingApiKey
    | some k =>
      if k = [] then .error .missingApiKey
      else .ok { apiKey := k, prompt := buildPrompt args.content args.tone }

/-! ### Character-level facts -/

theorem ne_of_toNat_ne {c d : Char} (h : c.toNat ≠ d.toNat) : c ≠ d :=
  fun e => h (by rw [e])

theorem digit_toNat {c : Char} (h : isDigitChar c = true) :
    48 ≤ c.toNat ∧ c.toNat ≤ 57 := by
  simpa [isDigitChar] using h

theorem digit_not_white {c : Char} (h : isDigitChar c = true) :
    isJsWhite c = false := by
  obtain ⟨h1, h2⟩ := digit_toNat h
  simp only [isJsWhite]
  simp only [Bool.or_eq_false_iff, decide_eq_false_iff_not, Bool.and_eq_false_iff,
    decide_eq_false_iff_not, not_le]
  omega

theorem digit_ne_semi {c : Char} (h : isDigitChar c = true) : c ≠ ';' := by
  obtain ⟨h1, h2⟩ := digit_toNat h
  exact ne_of_toNat_ne (by simp only [show (';').toNat = 59 from rfl]; omega)

theorem digit_ne_slash {c : Char} (h : isDigitChar c = true) : c ≠ '/' := by
  obtain ⟨h1, h2⟩ := digit_toNat h
  exact ne_of_toNat_ne (by simp only [show ('/').toNat = 47 from rfl]; omega)

theorem digit_ne_eq {c : Char} (h : isDigitChar c = true) : c ≠ '=' := by
  obtain ⟨h1, h2⟩ := digit_toNat h
  exact ne_of_toNat_ne (by simp only [show ('=').toNat = 61 from rfl]; omega)

theorem digit_ne_minus {c : Char} (h : isDigitChar c = true) : c ≠ '-' := by
  obtain ⟨h1, h2⟩ := digit_toNat h
  exact ne_of_toNat_ne (by simp only [show ('-').toNat = 45 from rfl]; omega)

theorem digit_ne_plus {c : Char} (h : isDigitChar c = true) : c ≠ '+' := by
  obtain ⟨h1, h2⟩ := digit_toNat h
  exact ne_of_toNat_ne (by simp only [show ('+').toNat = 43 from rfl]; omega)

/-! ### Split, trim and parseInt lemmas -/

theorem jsSplit_ne_nil (sep : Char) (l : List Char) : jsSplit sep l ≠ [] := by
  induction l with
  | nil => simp [jsSplit]
  | cons c cs ih =>
    simp only [jsSplit]
    split
    · simp
    · cases h : jsSplit sep cs with
      | nil => simp
      | cons h t => simp

theorem jsSplit_head? (sep : Char) (l : List Char) :
    (jsSplit sep l).head? = some (l.takeWhile (fun c => !(c == sep))) := by
  induction l with
  | nil => simp [jsSplit]
  | cons c cs ih =>
    simp only [jsSplit, List.takeWhile_cons]
    by_cases hc : c = sep
    · simp [hc]
    · simp only [if_neg hc]
      cases h : jsSplit sep cs with
      | nil => exact absurd h (jsSplit_ne_nil sep cs)
      | cons h t =>
        rw [h] at ih
        simp only [List.head?_cons, Option.some.injEq] at ih
        simp [hc, ih]

theorem jsSplit_of_not_mem {sep : Char} {l : List Char}
    (h : ∀ c ∈ l, c ≠ sep) : jsSplit sep l = [l] := by
  induction l with
  | nil => rfl
  | cons c cs ih =>
    have hc : c ≠ sep := h c (by simp)
    have ih' := ih (fun d hd => h d (by simp [hd]))
    simp [jsSplit, if_neg hc, ih']

theorem jsSplit_append_sep (sep : Char) (a b : List Char)
    (h : ∀ c ∈ a, c ≠ sep) : jsSplit sep (a ++ sep :: b) = a :: jsSplit sep b := by
  induction a with
  | nil => simp [jsSplit]
  | cons c cs ih =>
    have hc : c ≠ sep := h c (by simp)
    have ih' := ih (fun d hd => h d (by simp [hd]))
    simp only [List.cons_append, jsSplit, if_neg hc, List.append_eq, ih']

theorem takeWhile_append_all {p : Char → Bool} {a : List Char} (b : List Char)
    (h : ∀ c ∈ a, p c = true) : (a ++ b).takeWhile p = a ++ b.takeWhile p := by
  induction a with
  | nil => simp
  | cons c cs ih =>
    have hc : p c = true := h c (by simp)
    have ih' := ih (fun d hd => h d (by simp [hd]))
    simp [List.takeWhile_cons, hc, ih']

theorem dropWhile_append_of_all_false {p : Char → Bool} (y : List Char)
    {x : List Char} (hx : ∀ c ∈ x, p c = false) :
    (y ++ x).dropWhile p = y.dropWhile p ++ x := by
  induction y with
  | nil =>
    simp only [List.nil_append, List.dropWhile_nil]
    cases x with
    | nil => rfl
    | cons c t => simp [List.dropWhile_cons, hx c (by simp)]
  | cons c cs ih =>
    simp only [List.cons_append, List.dropWhile_cons]
    by_cases hc : p c
    · simp [hc, ih]
    · simp [hc]

theorem trimRight_append_nonwhite {a : List Char} (b : List Char)
    (h : ∀ c ∈ a, isJsWhite c = false) :
    trimRight (a ++ b) = a ++ trimRight b := by
  unfold trimRight
  rw [List.reverse_append,
    dropWhile_append_of_all_false b.reverse (by intro c hc; exact h c (by simpa using hc)),
    List.reverse_append, List.reverse_reverse]

theorem jsTrim_append_nonwhite (a b : List Char) (ha : a ≠ [])
    (h : ∀ c ∈ a, isJsWhite c = false) :
    jsTrim (a ++ b) = a ++ trimRight b := by
  obtain ⟨c, cs, rfl⟩ : ∃ c cs, a = c :: cs := by
    cases a with
    | nil => exact absurd rfl ha
    | cons c cs => exact ⟨c, cs, rfl⟩
  unfold jsTrim
  rw [List.cons_append, List.dropWhile_cons, if_neg (by simp [h c (by simp)])]
  exact trimRight_append_nonwhite b h

theorem trimRight_nil : trimRight [] = [] := rfl

theorem jsTrim_nonwhite {l : List Char} (h : ∀ c ∈ l, isJsWhite c = false) :
    jsTrim l = l := by
  cases l with
  | nil => rfl
  | cons c cs =>
    have := jsTrim_append_nonwhite (c :: cs) [] (by simp) h
    simpa [trimRight_nil] using this

/-- The head of a list is not a decimal digit (vacuously true for the
empty list). -/
def HeadNotDigit (l : List Char) : Prop :=
  ∀ c, l.head? = some c → isDigitChar c = false

theorem headNotDigit_nil : HeadNotDigit [] := by
  intro c h
  simp at h

theorem HeadNotDigit.takeWhile {l : List Char} (p : Char → Bool)
    (h : HeadNotDigit l) : HeadNotDigit (l.takeWhile p) := by
  cases l with
  | nil => exact headNotDigit_nil
  | cons c cs =>
    rw [List.takeWhile_cons]
    by_cases hc : p c
    · simp only [hc, if_true]
      intro d hd
      simp only [List.head?_cons, Option.some.injEq] at hd
      exact hd ▸ h c (by simp)
    · simp only [hc, if_false]
      exact headNotDigit_nil

theorem dropWhile_snoc_cases (p : Char → Bool) (y : List Char) (c : Char) :
    (y ++ [c]).dropWhile p = [] ∨ ∃ z, (y ++ [c]).dropWhile p = z ++ [c] := by
  induction y with
  | nil =>
    simp only [List.nil_append, List.dropWhile_cons, List.dropWhile_nil]
    by_cases hc : p c
    · simp [hc]
    · exact Or.inr ⟨[], by simp [hc]⟩
  | cons a y ih =>
    simp only [List.cons_append, List.dropWhile_cons]
    by_cases ha : p a
    · simpa [ha] using ih
    · exact Or.inr ⟨a :: y, by simp [ha]⟩

theorem trimRight_cons_cases (c : Char) (t : List Char) :
    trimRight (c :: t) = [] ∨ ∃ z, trimRight (c :: t) = c :: z := by
  unfold trimRight
  rw [show (c :: t).reverse = t.reverse ++ [c] by simp]
  rcases dropWhile_snoc_cases isJsWhite t.reverse c with h | ⟨z, h⟩
  · exact Or.inl (by simp [h])
  · exact Or.inr ⟨z.reverse, by simp [h]⟩

theorem HeadNotDigit.trimRight {l : List Char} (h : HeadNotDigit l) :
    HeadNotDigit (TTS.trimRight l) := by
  cases l with
  | nil => exact headNotDigit_nil
  | cons c t =>
    rcases trimRight_cons_cases c t with he | ⟨z, he⟩
    · rw [he]; exact headNotDigit_nil
    · rw [he]
      intro d hd
      simp only [List.head?_cons, Option.some.injEq] at hd
      exact hd ▸ h c (by simp)

theorem jsParseInt_digits_append {ds : List Char} (z : List Char) (h1 : ds ≠ [])
    (h2 : ∀ c ∈ ds, isDigitChar c = true) (hz : HeadNotDigit z) :
    jsParseInt (ds ++ z) = some ((decVal ds : Nat) : Int) := by
  obtain ⟨d, ds', rfl⟩ : ∃ d ds', ds = d :: ds' := by
    cases ds with
    | nil => exact absurd rfl h1
    | cons d ds' => exact ⟨d, ds', rfl⟩
  have hd : isDigitChar d = true := h2 d (by simp)
  have hdrop : ((d :: ds') ++ z).dropWhile isJsWhite = (d :: ds') ++ z := by
    rw [List.cons_append, List.dropWhile_cons, if_neg (by simp [digit_not_white hd])]
  have htake : ((d :: ds') ++ z).takeWhile isDigitChar = d :: ds' := by
    rw [takeWhile_append_all z h2]
    rcases hcz : z with _ | ⟨c, t⟩
    · simp
    · have : isDigitChar c = false := hz c (by simp [hcz])
      simp [List.takeWhile_cons, this]
  have hm : d ≠ '-' := digit_ne_minus hd
  have hp : d ≠ '+' := digit_ne_plus hd
  have hhead : ((d :: ds') ++ z).head? = some d := by simp
  rw [jsParseInt, hdrop, jsParseIntCore,
    if_neg (by rw [hhead]; simp [hm]), if_neg (by rw [hhead]; simp [hp]),
    htake, if_neg (by simp)]

theorem jsParseInt_none_head {v : List Char} {c : Char} (h : jsParseInt v = none)
    (hc : v.head? = some c) : isDigitChar c = false := by
  by_contra hdig
  have hd : isDigitChar c = true := by
    cases hx : isDigitChar c
    · exact absurd hx hdig
    · rfl
  obtain ⟨t, rfl⟩ : ∃ t, v = c :: t := by
    cases v with
    | nil => simp at hc
    | cons a t =>
      simp only [List.head?_cons, Option.some.injEq] at hc
      exact ⟨t, by rw [hc]⟩
  have hdrop : (c :: t).dropWhile isJsWhite = c :: t := by
    rw [List.dropWhile_cons, if_neg (by simp [digit_not_white hd])]
  have hm : c ≠ '-' := digit_ne_minus hd
  have hp : c ≠ '+' := digit_ne_plus hd
  rw [jsParseInt, hdrop, jsParseIntCore,
    if_neg (by simp [hm]), if_neg (by simp [hp])] at h
  simp [List.takeWhile_cons, hd] at h

/-! ### Parameter-fold invariants -/

theorem applyRate_numChannels (o : WavConversionOptions) (p : List Char) :
    (applyRate o p).numChannels = o.numChannels := by
  unfold applyRate
  split <;> rfl

theorem applyRate_bitsPerSample (o : WavConversionOptions) (p : List Char) :
    (applyRate o p).bitsPerSample = o.bitsPerSample := by
  unfold applyRate
  split <;> rfl

theorem applyFormat_numChannels (o : WavConversionOptions) (s : List Char) :
    (applyFormat o s).numChannels = o.numChannels := by
  unfold applyFormat
  split
  · rfl
  · split
    · split <;> rfl
    · rfl

theorem applyFormat_sampleRate (o : WavConversionOptions) (s : List Char) :
    (applyFormat o s).sampleRate = o.sampleRate := by
  unfold applyFormat
  split
  · rfl
  · split
    · split <;> rfl
    · rfl

theorem foldl_applyRate_numChannels (ps : List (List Char)) (o : WavConversionOptions) :
    (ps.foldl applyRate o).numChannels = o.numChannels := by
  induction ps generalizing o with
  | nil => rfl
  | cons p ps ih => rw [List.foldl_cons, ih, applyRate_numChannels]

theorem foldl_applyRate_bitsPerSample (ps : List (List Char)) (o : WavConversionOptions) :
    (ps.foldl applyRate o).bitsPerSample = o.bitsPerSample := by
  induction ps generalizing o with
  | nil => rfl
  | cons p ps ih => rw [List.foldl_cons, ih, applyRate_bitsPerSample]

theorem getLast?_cons_of_some {α : Type} {l : List α} {q : α} (a : α)
    (h : l.getLast? = some q) : (a :: l).getLast? = some q := by
  cases l with
  | nil => simp at h
  | cons b t => rw [List.getLast?_cons_cons]; exact h

/-- The sample rate after the parameter fold is determined by the last
rate-keyed parameter, when one exists. -/
theorem foldl_applyRate_sampleRate (ps : List (List Char)) (o : WavConversionOptions) :
    (ps.foldl applyRate o).sampleRate =
      ((ps.filter (fun p => decide (keyOf p = rateKey))).getLast?.elim o.sampleRate
        (fun p => jsParseIntOpt (valueOf p))) := by
  induction ps generalizing o with
  | nil => rfl
  | cons p ps ih =>
    rw [List.foldl_cons, ih, List.filter_cons]
    by_cases hk : keyOf p = rateKey
    · rw [if_pos (by simp [hk])]
      cases hl : (ps.filter (fun p => decide (keyOf p = rateKey))).getLast? with
      | none =>
        have : ps.filter (fun p => decide (keyOf p = rateKey)) = [] :=
          List.getLast?_eq_none_iff.mp hl
        simp [this, applyRate, if_pos hk]
      | some q =>
        rw [getLast?_cons_of_some p hl]
        simp
    · rw [if_neg (by simp [hk])]
      rw [show applyRate o p = o from by simp [applyRate, if_neg hk]]

/-! ### The general audio/L descriptor computation -/

theorem segsOf_two {A B : List Char} (hA : ∀ c ∈ A, c ≠ ';') (hB : ∀ c ∈ B, c ≠ ';') :
    segsOf (A ++ ';' :: B) = [jsTrim A, jsTrim B] := by
  unfold segsOf
  rw [jsSplit_append_sep ';' A B hA, jsSplit_of_not_mem hB]
  rfl

/-- Parsing a descriptor of shape audio/L(digits)(junk);rate=(digits)(junk),
where each junk part does not start with a digit and contains no semicolon:
the leading digit runs win, one channel, and the defaults are overridden. -/
theorem parseMimeType_general (ds rest rs rrest : List Char)
    (hds : ds ≠ []) (hdsd : ∀ c ∈ ds, isDigitChar c = true)
    (hrs : rs ≠ []) (hrsd : ∀ c ∈ rs, isDigitChar c = true)
    (hr1 : ∀ c ∈ rest, c ≠ ';') (hr2 : HeadNotDigit rest)
    (hq1 : ∀ c ∈ rrest, c ≠ ';') (hq2 : HeadNotDigit rrest) :
    parseMimeType (('a' :: 'u' :: 'd' :: 'i' :: 'o' :: '/' :: 'L' :: (ds ++ rest)) ++
        ';' :: ('r' :: 'a' :: 't' :: 'e' :: '=' :: (rs ++ rrest))) =
      { numChannels := 1, sampleRate := some ((decVal rs : Nat) : Int),
        bitsPerSample := ((decVal ds : Nat) : Int) } := by
  have hAne : ∀ c ∈ ('a' :: 'u' :: 'd' :: 'i' :: 'o' :: '/' :: 'L' :: (ds ++ rest)), c ≠ ';' := by
    intro c hc
    simp only [List.mem_cons, List.mem_append] at hc
    rcases hc with rfl | rfl | rfl | rfl | rfl | rfl | rfl | hc | hc
    · decide
    · decide
    · decide
    · decide
    · decide
    · decide
    · decide
    · exact digit_ne_semi (hdsd c hc)
    · exact hr1 c hc
  have hBne : ∀ c ∈ ('r' :: 'a' :: 't' :: 'e' :: '=' :: (rs ++ rrest)), c ≠ ';' := by
    intro c hc
    simp only [List.mem_cons, List.mem_append] at hc
    rcases hc with rfl | rfl | rfl | rfl | rfl | hc | hc
    · decide
    · decide
    · decide
    · decide
    · decide
    · exact digit_ne_semi (hrsd c hc)
    · exact hq1 c hc
  have hsegs := segsOf_two hAne hBne
  have htrimA : jsTrim ('a' :: 'u' :: 'd' :: 'i' :: 'o' :: '/' :: 'L' :: (ds ++ rest)) =
      'a' :: 'u' :: 'd' :: 'i' :: 'o' :: '/' :: 'L' :: (ds ++ trimRight rest) := by
    have h := jsTrim_append_nonwhite ('a' :: 'u' :: 'd' :: 'i' :: 'o' :: '/' :: 'L' :: ds)
      rest (by simp) (by
        intro c hc
        simp only [List.mem_cons] at hc
        rcases hc with rfl | rfl | rfl | rfl | rfl | rfl | rfl | hc
        · decide
        · decide
        · decide
        · decide
        · decide
        · decide
        · decide
        · exact digit_not_white (hdsd c hc))
    simpa using h
  have htrimB : jsTrim ('r' :: 'a' :: 't' :: 'e' :: '=' :: (rs ++ rrest)) =
      'r' :: 'a' :: 't' :: 'e' :: '=' :: (rs ++ trimRight rrest) := by
    have h := jsTrim_append_nonwhite ('r' :: 'a' :: 't' :: 'e' :: '=' :: rs)
      rrest (by simp) (by
        intro c hc
        simp only [List.mem_cons] at hc
        rcases hc with rfl | rfl | rfl | rfl | rfl | hc
        · decide
        · decide
        · decide
        · decide
        · decide
        · exact digit_not_white (hrsd c hc))
    simpa using h
  have hft : fileTypeOf (('a' :: 'u' :: 'd' :: 'i' :: 'o' :: '/' :: 'L' :: (ds ++ rest)) ++
      ';' :: ('r' :: 'a' :: 't' :: 'e' :: '=' :: (rs ++ rrest))) =
      'a' :: 'u' :: 'd' :: 'i' :: 'o' :: '/' :: 'L' :: (ds ++ trimRight rest) := by
    unfold fileTypeOf
    rw [hsegs, List.headD_cons, htrimA]
  have hparams : paramsOf (('a' :: 'u' :: 'd' :: 'i' :: 'o' :: '/' :: 'L' :: (ds ++ rest)) ++
      ';' :: ('r' :: 'a' :: 't' :: 'e' :: '=' :: (rs ++ rrest))) =
      ['r' :: 'a' :: 't' :: 'e' :: '=' :: (rs ++ trimRight rrest)] := by
    unfold paramsOf
    rw [hsegs, List.tail_cons, htrimB]
  have hsplitA : jsSplit '/' ('a' :: 'u' :: 'd' :: 'i' :: 'o' :: '/' :: 'L' :: (ds ++ trimRight rest)) =
      ['a', 'u', 'd', 'i', 'o'] :: jsSplit '/' ('L' :: (ds ++ trimRight rest)) := by
    have h := jsSplit_append_sep '/' ['a', 'u', 'd', 'i', 'o']
      ('L' :: (ds ++ trimRight rest)) (by decide)
    simpa using h
  have hformat : formatOf (('a' :: 'u' :: 'd' :: 'i' :: 'o' :: '/' :: 'L' :: (ds ++ rest)) ++
      ';' :: ('r' :: 'a' :: 't' :: 'e' :: '=' :: (rs ++ rrest))) =
      some ('L' :: (ds ++ (trimRight rest).takeWhile (fun c => !(c == '/')))) := by
    unfold formatOf
    rw [hft, hsplitA]
    cases heq : jsSplit '/' ('L' :: (ds ++ trimRight rest)) with
    | nil => exact absurd heq (jsSplit_ne_nil _ _)
    | cons y ys =>
      have hhy := jsSplit_head? '/' ('L' :: (ds ++ trimRight rest))
      rw [heq] at hhy
      simp only [List.head?_cons, Option.some.injEq] at hhy
      simp only [List.getElem?_cons_succ, List.getElem?_cons_zero, Option.some.injEq]
      rw [hhy, List.takeWhile_cons, if_pos (by decide),
        takeWhile_append_all (trimRight rest)
          (fun c hc => by simp [digit_ne_slash (hdsd c hc)])]
  have ht2 : HeadNotDigit ((trimRight rest).takeWhile (fun c => !(c == '/'))) :=
    HeadNotDigit.takeWhile _ (HeadNotDigit.trimRight hr2)
  have happlyF : applyFormat defaultOptions
      (('a' :: 'u' :: 'd' :: 'i' :: 'o' :: '/' :: 'L' :: (ds ++ rest)) ++
        ';' :: ('r' :: 'a' :: 't' :: 'e' :: '=' :: (rs ++ rrest))) =
      { numChannels := 1, sampleRate := some 16000,
        bitsPerSample := ((decVal ds : Nat) : Int) } := by
    unfold applyFormat
    rw [hformat]
    simp only [jsStartsWith, List.head?_cons, if_pos rfl, List.drop_succ_cons, List.drop_zero]
    rw [jsParseInt_digits_append _ hds hdsd ht2]
    simp [defaultOptions]
  have hkey : keyOf ('r' :: 'a' :: 't' :: 'e' :: '=' :: (rs ++ trimRight rrest)) = rateKey := by
    unfold keyOf kvOf
    have h := jsSplit_append_sep '=' ['r', 'a', 't', 'e']
      (rs ++ trimRight rrest) (by decide)
    rw [show ('r' :: 'a' :: 't' :: 'e' :: '=' :: (rs ++ trimRight rrest)) =
      ['r', 'a', 't', 'e'] ++ '=' :: (rs ++ trimRight rrest) from rfl, h]
    rw [List.map_cons, List.headD_cons, jsTrim_nonwhite (by decide)]
    rfl
  have hval : valueOf ('r' :: 'a' :: 't' :: 'e' :: '=' :: (rs ++ trimRight rrest)) =
      some (rs ++ trimRight ((trimRight rrest).takeWhile (fun c => !(c == '=')))) := by
    unfold valueOf kvOf
    have h := jsSplit_append_sep '=' ['r', 'a', 't', 'e']
      (rs ++ trimRight rrest) (by decide)
    rw [show ('r' :: 'a' :: 't' :: 'e' :: '=' :: (rs ++ trimRight rrest)) =
      ['r', 'a', 't', 'e'] ++ '=' :: (rs ++ trimRight rrest) from rfl, h]
    cases heq : jsSplit '=' (rs ++ trimRight rrest) with
    | nil => exact absurd heq (jsSplit_ne_nil _ _)
    | cons w ws =>
      have hhw := jsSplit_head? '=' (rs ++ trimRight rrest)
      rw [heq] at hhw
      simp only [List.head?_cons, Option.some.injEq] at hhw
      simp only [List.map_cons, List.getElem?_cons_succ, List.getElem?_cons_zero,
        Option.some.injEq]
      rw [hhw, takeWhile_append_all (trimRight rrest)
        (fun c hc => by simp [digit_ne_eq (hrsd c hc)])]
      exact jsTrim_append_nonwhite _ _ hrs (fun c hc => digit_not_white (hrsd c hc))
  have hzq : HeadNotDigit (trimRight ((trimRight rrest).takeWhile (fun c => !(c == '=')))) :=
    HeadNotDigit.trimRight (HeadNotDigit.takeWhile _ (HeadNotDigit.trimRight hq2))
  have happlyR : ∀ bv : Int, applyRate
      { numChannels := 1, sampleRate := some 16000, bitsPerSample := bv }
      ('r' :: 'a' :: 't' :: 'e' :: '=' :: (rs ++ trimRight rrest)) =
      { numChannels := 1, sampleRate := some ((decVal rs : Nat) : Int),
        bitsPerSample := bv } := by
    intro bv
    unfold applyRate
    rw [if_pos hkey, hval]
    simp only [jsParseIntOpt]
    rw [jsParseInt_digits_append _ hrs hrsd hzq]
  unfold parseMimeType
  rw [hparams, happlyF, List.foldl_cons, List.foldl_nil, happlyR]

/-! ### Decimal numerals -/

theorem headNotDigit_cons {c : Char} (t : List Char) (h : isDigitChar c = false) :
    HeadNotDigit (c :: t) := by
  intro d hd
  simp only [List.head?_cons, Option.some.injEq] at hd
  exact hd ▸ h

theorem digit_char_toNat {d : Nat} (h : d < 10) : (Char.ofNat (48 + d)).toNat = 48 + d := by
  interval_cases d <;> decide

theorem decVal_snoc (a : List Char) (c : Char) :
    decVal (a ++ [c]) = 10 * decVal a + (c.toNat - 48) := by
  unfold decVal
  rw [List.foldl_append]
  rfl

theorem decReprAux_ne_nil (fuel n : Nat) (h : n < fuel) : decReprAux fuel n ≠ [] := by
  cases fuel with
  | zero => omega
  | succ f =>
    unfold decReprAux
    by_cases h10 : n < 10
    · rw [if_pos h10]; simp
    · rw [if_neg h10]; simp

theorem decReprAux_digits (fuel : Nat) :
    ∀ n, n < fuel → ∀ c ∈ decReprAux fuel n, isDigitChar c = true := by
  induction fuel with
  | zero => intro n h; omega
  | succ f ih =>
    intro n h c hc
    unfold decReprAux at hc
    by_cases h10 : n < 10
    · rw [if_pos h10] at hc
      simp only [List.mem_singleton] at hc
      subst hc
      simp only [isDigitChar, digit_char_toNat h10, Bool.and_eq_true, decide_eq_true_eq]
      omega
    · rw [if_neg h10] at hc
      simp only [List.mem_append, List.mem_singleton] at hc
      rcases hc with hc | hc
      · have hdiv : n / 10 < f := by
          have h1 : n / 10 < n := Nat.div_lt_self (by omega) (by omega)
          omega
        exact ih (n / 10) hdiv c hc
      · subst hc
        have h10' : n % 10 < 10 := Nat.mod_lt n (by omega)
        simp only [isDigitChar, digit_char_toNat h10', Bool.and_eq_true, decide_eq_true_eq]
        omega

theorem decVal_decReprAux (fuel : Nat) :
    ∀ n, n < fuel → decVal (decReprAux fuel n) = n := by
  induction fuel with
  | zero => intro n h; omega
  | succ f ih =>
    intro n h
    unfold decReprAux
    by_cases h10 : n < 10
    · rw [if_pos h10]
      show decVal ([] ++ [Char.ofNat (48 + n)]) = n
      rw [decVal_snoc, digit_char_toNat h10]
      simp [decVal]
    · rw [if_neg h10]
      have hdiv : n / 10 < f := by
        have h1 : n / 10 < n := Nat.div_lt_self (by omega) (by omega)
        omega
      rw [decVal_snoc, ih (n / 10) hdiv, digit_char_toNat (Nat.mod_lt n (by omega))]
      omega

theorem decRepr_ne_nil (n : Nat) : decRepr n ≠ [] :=
  decReprAux_ne_nil (n + 1) n (by omega)

theorem decRepr_digits (n : Nat) : ∀ c ∈ decRepr n, isDigitChar c = true :=
  decReprAux_digits (n + 1) n (by omega)

theorem decVal_decRepr (n : Nat) : decVal (decRepr n) = n :=
  decVal_decReprAux (n + 1) n (by omega)

/-! ### Remaining parser helpers -/

theorem applyFormat_eq_of_none {o : WavConversionOptions} {s : List Char}
    (hf : formatOf s = none) : applyFormat o s = o := by
  unfold applyFormat
  rw [hf]

theorem applyFormat_eq_of_notL {o : WavConversionOptions} {s : List Char} {f : List Char}
    (hf : formatOf s = some f) (hsw : jsStartsWith f 'L' = false) :
    applyFormat o s = o := by
  unfold applyFormat
  rw [hf]
  simp [hsw]

theorem applyFormat_eq_of_parse_none {o : WavConversionOptions} {s : List Char}
    {f : List Char} (hf : formatOf s = some f) (hsw : jsStartsWith f 'L' = true)
    (hpi : jsParseInt (f.drop 1) = none) : applyFormat o s = o := by
  unfold applyFormat
  rw [hf]
  rw [List.drop_one] at hpi
  simp [hsw, hpi]

theorem applyFormat_eq_of_parse_some {o : WavConversionOptions} {s : List Char}
    {f : List Char} {b : Int} (hf : formatOf s = some f)
    (hsw : jsStartsWith f 'L' = true) (hpi : jsParseInt (f.drop 1) = some b) :
    applyFormat o s = { o with bitsPerSample := b } := by
  unfold applyFormat
  rw [hf]
  rw [List.drop_one] at hpi
  simp [hsw, hpi]

theorem getArgs_missing {argv : List (List Char)} (hg : argv.get? 2 = none) :
    getArgs argv = Except.error CliError.missingContent := by
  unfold getArgs
  rw [hg]

theorem getArgs_blank {argv : List (List Char)} {c : List Char}
    (hg : argv.get? 2 = some c) (ht : jsTrim c = []) :
    getArgs argv = Except.error CliError.missingContent := by
  unfold getArgs
  rw [hg]
  simp [ht]

theorem getArgs_ok {argv : List (List Char)} {c : List Char}
    (hg : argv.get? 2 = some c) (ht : jsTrim c ≠ []) :
    getArgs argv = Except.ok { content := jsTrim c, tone := (argv.get? 3).map jsTrim } := by
  unfold getArgs
  rw [hg]
  simp [ht]

theorem foldl_applyRate_of_no_rate {ps : List (List Char)}
    (h : ∀ p ∈ ps, keyOf p ≠ rateKey) (o : WavConversionOptions) :
    ps.foldl applyRate o = o := by
  induction ps generalizing o with
  | nil => rfl
  | cons p ps ih =>
    rw [List.foldl_cons, show applyRate o p = o from by
      simp [applyRate, if_neg (h p (by simp))]]
    exact ih (fun q hq => h q (by simp [hq])) _

/-! ### WAV header write lemmas -/

theorem writeUInt16LE_length {v : Option ℚ} {l : List Nat}
    (h : writeUInt16LE v = some l) : l.length = 2 := by
  cases v with
  | none =>
    simp only [writeUInt16LE, Option.some.injEq] at h
    simp [← h]
  | some q =>
    simp only [writeUInt16LE] at h
    split at h
    · simp at h
    · simp only [Option.some.injEq] at h
      simp [← h, u16Bytes]

theorem writeUInt32LE_length {v : Option ℚ} {l : List Nat}
    (h : writeUInt32LE v = some l) : l.length = 4 := by
  cases v with
  | none =>
    simp only [writeUInt32LE, Option.some.injEq] at h
    simp [← h]
  | some q =>
    simp only [writeUInt32LE] at h
    split at h
    · simp at h
    · simp only [Option.some.injEq] at h
      simp [← h, u32Bytes]

theorem writeUInt16LE_natCast (n : Nat) (h : n ≤ 65535) :
    writeUInt16LE (some (n : ℚ)) = some (u16Bytes n) := by
  simp only [writeUInt16LE]
  rw [if_neg, Int.floor_natCast, Int.toNat_natCast]
  push_neg
  constructor
  · positivity
  · exact_mod_cast h

theorem writeUInt32LE_natCast (n : Nat) (h : n ≤ 4294967295) :
    writeUInt32LE (some (n : ℚ)) = some (u32Bytes n) := by
  simp only [writeUInt32LE]
  rw [if_neg, Int.floor_natCast, Int.toNat_natCast]
  push_neg
  constructor
  · positivity
  · exact_mod_cast h

theorem writeUInt16LE_div8 (n : Nat) (h : n ≤ 524280) :
    writeUInt16LE (some ((n : ℚ) / 8)) = some (u16Bytes (n / 8)) := by
  simp only [writeUInt16LE]
  rw [if_neg, Int.floor_toNat,
    show ((8 : ℚ)) = ((8 : ℕ) : ℚ) from by norm_num,
    Nat.floor_div_eq_div]
  push_neg
  constructor
  · positivity
  · rw [div_le_iff₀ (by norm_num : (0 : ℚ) < 8)]
    have : (n : ℚ) ≤ 524280 := by exact_mod_cast h
    linarith

theorem writeUInt32LE_div8 (n : Nat) (h : n ≤ 34359738360) :
    writeUInt32LE (some ((n : ℚ) / 8)) = some (u32Bytes (n / 8)) := by
  simp only [writeUInt32LE]
  rw [if_neg, Int.floor_toNat,
    show ((8 : ℚ)) = ((8 : ℕ) : ℚ) from by norm_num,
    Nat.floor_div_eq_div]
  push_neg
  constructor
  · positivity
  · rw [div_le_iff₀ (by norm_num : (0 : ℚ) < 8)]
    have : (n : ℚ) ≤ 34359738360 := by exact_mod_cast h
    linarith

/-- Closed form of the header synthesizer for a descriptor of natural
numbers that fit their field widths: the 44 bytes of the claimed layout,
with byteRate and blockAlign given by truncating (integer) division. -/
theorem createWavHeader_eq (L ch r bits : Nat)
    (hch : ch ≤ 65535) (hbits : bits ≤ 65535) (hr : r ≤ 4294967295)
    (hL : 36 + L ≤ 4294967295) (hba : ch * bits ≤ 524280)
    (hbr : r * ch * bits ≤ 34359738360) :
    createWavHeader L
        { numChannels := (ch : Int), sampleRate := some (r : Int),
          bitsPerSample := (bits : Int) } =
      some ([82, 73, 70, 70] ++ u32Bytes (36 + L) ++ [87, 65, 86, 69] ++
        [102, 109, 116, 32] ++ u32Bytes 16 ++ u16Bytes 1 ++ u16Bytes ch ++ u32Bytes r ++
        u32Bytes (r * ch * bits / 8) ++ u16Bytes (ch * bits / 8) ++ u16Bytes bits ++
        [100, 97, 116, 97] ++ u32Bytes L) := by
  have hL' : L ≤ 4294967295 := by omega
  unfold createWavHeader
  simp only [Option.map_some', jsMul, jsDiv, Int.cast_natCast]
  rw [show ((36 : ℚ) + (L : ℚ)) = ((36 + L : ℕ) : ℚ) from by push_cast; ring,
    writeUInt32LE_natCast _ hL,
    show ((16 : ℚ)) = ((16 : ℕ) : ℚ) from by norm_num,
    writeUInt32LE_natCast 16 (by norm_num),
    show ((1 : ℚ)) = ((1 : ℕ) : ℚ) from by norm_num,
    writeUInt16LE_natCast 1 (by norm_num),
    writeUInt16LE_natCast ch hch,
    writeUInt32LE_natCast r hr,
    show ((r : ℚ) * (ch : ℚ) * (bits : ℚ) / 8) = ((r * ch * bits : ℕ) : ℚ) / 8 from by
      push_cast; ring,
    writeUInt32LE_div8 _ hbr,
    show ((ch : ℚ) * (bits : ℚ) / 8) = ((ch * bits : ℕ) : ℚ) / 8 from by push_cast; ring,
    writeUInt16LE_div8 _ hba,
    writeUInt16LE_natCast bits hbits,
    writeUInt32LE_natCast L hL']
  simp only [Option.some_bind]

/-- Any successfully synthesized header has exactly 44 bytes. -/
theorem createWavHeader_length {L : Nat} {o : WavConversionOptions} {hdr : List Nat}
    (h : createWavHeader L o = some hdr) : hdr.length = 44 := by
  unfold createWavHeader at h
  simp only [Option.bind_eq_some] at h
  obtain ⟨a1, h1, a2, h2, a3, h3, a4, h4, a5, h5, a6, h6, a7, h7, a8, h8, a9, h9, hfin⟩ := h
  simp only [Option.some.injEq] at hfin
  subst hfin
  simp [List.length_append,
    writeUInt32LE_length h1, writeUInt32LE_length h2, writeUInt16LE_length h3,
    writeUInt16LE_length h4, writeUInt32LE_length h5, writeUInt32LE_length h6,
    writeUInt16LE_length h7, writeUInt16LE_length h8, writeUInt32LE_length h9]

/-! ### The claims -/

/-- C1: for every payload length and AudioFormatDescriptor of positive
integers whose derived field values fit their integer widths,
createWavHeader yields exactly the 44-byte RIFF/WAVE layout: RIFF at 0,
36+L little-endian at 4, WAVE at 8, fmt-space at 12, 16 at 16, 1 at 20,
numChannels at 22, sampleRateHz at 24, byteRate = sampleRateHz times
numChannels times bitsPerSample over 8 (integer division) at 28,
blockAlign = numChannels times bitsPerSample over 8 at 32, bitsPerSample
at 34, data at 36 and L at 40. -/
theorem wav_header_layout (L ch r bits : Nat)
    (hch0 : 0 < ch) (hr0 : 0 < r) (hbits0 : 0 < bits)
    (hch : ch ≤ 65535) (hbits : bits ≤ 65535) (hr : r ≤ 4294967295)
    (hL : 36 + L ≤ 4294967295) (hba : ch * bits ≤ 524280)
    (hbr : r * ch * bits ≤ 34359738360) :
    createWavHeader L
        { numChannels := (ch : Int), sampleRate := some (r : Int),
          bitsPerSample := (bits : Int) } =
      some ([82, 73, 70, 70] ++ u32Bytes (36 + L) ++ [87, 65, 86, 69] ++
        [102, 109, 116, 32] ++ u32Bytes 16 ++ u16Bytes 1 ++ u16Bytes ch ++ u32Bytes r ++
        u32Bytes (r * ch * bits / 8) ++ u16Bytes (ch * bits / 8) ++ u16Bytes bits ++
        [100, 97, 116, 97] ++ u32Bytes L) ∧
    ([82, 73, 70, 70] ++ u32Bytes (36 + L) ++ [87, 65, 86, 69] ++
        [102, 109, 116, 32] ++ u32Bytes 16 ++ u16Bytes 1 ++ u16Bytes ch ++ u32Bytes r ++
        u32Bytes (r * ch * bits / 8) ++ u16Bytes (ch * bits / 8) ++ u16Bytes bits ++
        [100, 97, 116, 97] ++ u32Bytes L).length = 44 :=
  ⟨createWavHeader_eq L ch r bits hch hbits hr hL hba hbr,
   by simp [u32Bytes, u16Bytes]⟩

/-- C1 witness: the concrete case of payload length 0 and descriptor
one channel, 16000 Hz, 16 bits: ChunkSize bytes 36,0,0,0, ByteRate bytes
of 32000, BlockAlign bytes of 2, Subchunk2Size bytes of 0. -/
theorem wav_header_layout_witness :
    createWavHeader 0
        { numChannels := ((1 : Nat) : Int), sampleRate := some ((16000 : Nat) : Int),
          bitsPerSample := ((16 : Nat) : Int) } =
      some [82, 73, 70, 70, 36, 0, 0, 0, 87, 65, 86, 69, 102, 109, 116, 32,
        16, 0, 0, 0, 1, 0, 1, 0, 128, 62, 0, 0, 0, 125, 0, 0, 2, 0, 16, 0,
        100, 97, 116, 97, 0, 0, 0, 0] :=
  ((wav_header_layout 0 1 16000 16 (by decide) (by decide) (by decide) (by decide)
      (by decide) (by decide) (by decide) (by decide) (by decide)).1).trans (by decide)

/-- C2: whenever the synthesizer succeeds on the payload length, the
assembler output has length 44 plus the payload length, its first 44
bytes are the header and the rest is the payload, unchanged. -/
theorem wav_container_roundtrip (P : List Nat) (D : WavConversionOptions)
    (hdr : List Nat) (h : createWavHeader P.length D = some hdr) :
    (assembleWav hdr P).length = 44 + P.length ∧
    (assembleWav hdr P).take 44 = hdr ∧
    (assembleWav hdr P).drop 44 = P := by
  have hlen := createWavHeader_length h
  refine ⟨?_, ?_, ?_⟩
  · simp [assembleWav, hlen]
  · rw [assembleWav, ← hlen]
    exact List.take_left hdr P
  · rw [assembleWav, ← hlen]
    exact List.drop_left hdr P

/-- C2 witness: a three-byte payload with the default descriptor. -/
theorem wav_container_roundtrip_witness :
    (assembleWav [82, 73, 70, 70, 39, 0, 0, 0, 87, 65, 86, 69, 102, 109, 116, 32,
        16, 0, 0, 0, 1, 0, 1, 0, 128, 62, 0, 0, 0, 125, 0, 0, 2, 0, 16, 0,
        100, 97, 116, 97, 3, 0, 0, 0] [7, 8, 9]).length = 44 + 3 ∧
    (assembleWav [82, 73, 70, 70, 39, 0, 0, 0, 87, 65, 86, 69, 102, 109, 116, 32,
        16, 0, 0, 0, 1, 0, 1, 0, 128, 62, 0, 0, 0, 125, 0, 0, 2, 0, 16, 0,
        100, 97, 116, 97, 3, 0, 0, 0] [7, 8, 9]).take 44 =
      [82, 73, 70, 70, 39, 0, 0, 0, 87, 65, 86, 69, 102, 109, 116, 32,
        16, 0, 0, 0, 1, 0, 1, 0, 128, 62, 0, 0, 0, 125, 0, 0, 2, 0, 16, 0,
        100, 97, 116, 97, 3, 0, 0, 0] ∧
    (assembleWav [82, 73, 70, 70, 39, 0, 0, 0, 87, 65, 86, 69, 102, 109, 116, 32,
        16, 0, 0, 0, 1, 0, 1, 0, 128, 62, 0, 0, 0, 125, 0, 0, 2, 0, 16, 0,
        100, 97, 116, 97, 3, 0, 0, 0] [7, 8, 9]).drop 44 = [7, 8, 9] :=
  wav_container_roundtrip [7, 8, 9]
    { numChannels := ((1 : Nat) : Int), sampleRate := some ((16000 : Nat) : Int),
      bitsPerSample := ((16 : Nat) : Int) } _
    ((createWavHeader_eq 3 1 16000 16 (by decide) (by decide) (by decide) (by decide)
        (by decide) (by decide)).trans (by decide))

/-- C3: a descriptor string audio/L(N);rate=(R) with N and R written as
decimal numerals parses to one channel, sample rate R and N bits per
sample. -/
theorem parse_decimal_descriptor (n r : Nat) (hn : 0 < n) (hr : 0 < r) :
    parseMimeType ("audio/L".toList ++ decRepr n ++ ";rate=".toList ++ decRepr r) =
      { numChannels := 1, sampleRate := some (r : Int), bitsPerSample := (n : Int) } := by
  have h := parseMimeType_general (decRepr n) [] (decRepr r) []
    (decRepr_ne_nil n) (decRepr_digits n) (decRepr_ne_nil r) (decRepr_digits r)
    (by simp) headNotDigit_nil (by simp) headNotDigit_nil
  rw [decVal_decRepr, decVal_decRepr] at h
  simpa using h

/-- C3 witness: audio/L16;rate=24000 parses to one channel, 24000 Hz,
16 bits. -/
theorem parse_decimal_descriptor_witness :
    parseMimeType "audio/L16;rate=24000".toList =
      { numChannels := 1, sampleRate := some 24000, bitsPerSample := 16 } := by
  have h := parse_decimal_descriptor 16 24000 (by decide) (by decide)
  have e1 : decRepr 16 = ['1', '6'] := by decide
  have e2 : decRepr 24000 = ['2', '4', '0', '0', '0'] := by decide
  rw [e1, e2] at h
  exact h.trans (by decide)

/-- C4: the sample rate comes from the last rate-keyed parameter, and the
assignment happens even when the value fails to parse, leaving the
not-a-number value rather than the default or an error; concretely, a
valid earlier rate is overwritten by a later unparseable one. -/
theorem parse_rate_last_wins :
    (∀ (s : List Char) (h : rateParams s ≠ []),
      (parseMimeType s).sampleRate = jsParseIntOpt (valueOf ((rateParams s).getLast h))) ∧
    parseMimeType "audio/L16;rate=9999;rate=abc".toList =
      { numChannels := 1, sampleRate := none, bitsPerSample := 16 } := by
  constructor
  · intro s h
    have hrw : rateParams s = (paramsOf s).filter (fun p => decide (keyOf p = rateKey)) := rfl
    unfold parseMimeType
    rw [foldl_applyRate_sampleRate, ← hrw, List.getLast?_eq_getLast_of_ne_nil h]
    rfl
  · decide

/-- C4 witness: with two rate parameters the later one wins. -/
theorem parse_rate_last_wins_witness :
    (parseMimeType "a;rate=1;rate=2".toList).sampleRate = some 2 :=
  (parse_rate_last_wins.1 "a;rate=1;rate=2".toList (by decide)).trans (by decide)

/-- C5: the parser is a total function; on every input the result has
numChannels 1, a sample rate that is either the default 16000 or the
parse of some rate-keyed parameter value, and a bit depth that is either
the default 16 or the successful parse of an L-prefixed subtype. -/
theorem parse_total_fields_provenance (s : List Char) :
    (parseMimeType s).numChannels = 1 ∧
    ((parseMimeType s).sampleRate = some 16000 ∨
      ∃ p ∈ paramsOf s, keyOf p = rateKey ∧
        (parseMimeType s).sampleRate = jsParseIntOpt (valueOf p)) ∧
    ((parseMimeType s).bitsPerSample = 16 ∨
      ∃ f, formatOf s = some f ∧ jsStartsWith f 'L' = true ∧
        jsParseInt (f.drop 1) = some ((parseMimeType s).bitsPerSample)) := by
  refine ⟨?_, ?_, ?_⟩
  · unfold parseMimeType
    rw [foldl_applyRate_numChannels, applyFormat_numChannels]
    rfl
  · have hsr : (parseMimeType s).sampleRate =
        ((paramsOf s).filter (fun p => decide (keyOf p = rateKey))).getLast?.elim
          (some 16000) (fun p => jsParseIntOpt (valueOf p)) := by
      unfold parseMimeType
      rw [foldl_applyRate_sampleRate, applyFormat_sampleRate]
      rfl
    cases hl : ((paramsOf s).filter (fun p => decide (keyOf p = rateKey))).getLast? with
    | none =>
      left
      rw [hsr, hl]
      rfl
    | some p =>
      right
      have hp : p ∈ (paramsOf s).filter (fun p => decide (keyOf p = rateKey)) := by
        obtain ⟨hh, he⟩ := List.mem_getLast?_eq_getLast (by rw [hl]; rfl)
        rw [he]
        exact List.getLast_mem hh
      rcases List.mem_filter.mp hp with ⟨h1, h2⟩
      exact ⟨p, h1, by simpa using h2, by rw [hsr, hl]; rfl⟩
  · have hb : (parseMimeType s).bitsPerSample = (applyFormat defaultOptions s).bitsPerSample := by
      unfold parseMimeType
      rw [foldl_applyRate_bitsPerSample]
    cases hf : formatOf s with
    | none => left; rw [hb, applyFormat_eq_of_none hf]; rfl
    | some f =>
      cases hsw : jsStartsWith f 'L' with
      | false => left; rw [hb, applyFormat_eq_of_notL hf hsw]; rfl
      | true =>
        cases hpi : jsParseInt (f.drop 1) with
        | none => left; rw [hb, applyFormat_eq_of_parse_none hf hsw hpi]; rfl
        | some b =>
          refine Or.inr ⟨f, rfl, hsw, ?_⟩
          rw [hb, applyFormat_eq_of_parse_some hf hsw hpi, hpi]

/-- C6: with no parseable L-prefixed subtype and no rate-keyed parameter,
the parser returns exactly the default descriptor. -/
theorem parse_defaults_unrecognized (s : List Char)
    (hfmt : ∀ f, formatOf s = some f → jsStartsWith f 'L' = true →
      jsParseInt (f.drop 1) = none)
    (hrate : ∀ p ∈ paramsOf s, keyOf p ≠ rateKey) :
    parseMimeType s = defaultOptions := by
  unfold parseMimeType
  rw [foldl_applyRate_of_no_rate hrate]
  cases hf : formatOf s with
  | none => exact applyFormat_eq_of_none hf
  | some f =>
    cases hsw : jsStartsWith f 'L' with
    | false => exact applyFormat_eq_of_notL hf hsw
    | true => exact applyFormat_eq_of_parse_none hf hsw (hfmt f hf hsw)

/-- C6 witness: audio/wav has a subtype that does not start with L and no
parameters, so the defaults survive. -/
theorem parse_defaults_unrecognized_witness :
    parseMimeType "audio/wav".toList = defaultOptions := by
  apply parse_defaults_unrecognized
  · intro f hf hsw
    have he : formatOf "audio/wav".toList = some ['w', 'a', 'v'] := by decide
    rw [he] at hf
    injection hf with hf
    rw [← hf] at hsw
    exact absurd hsw (by decide)
  · intro p hp
    have he : paramsOf "audio/wav".toList = [] := by decide
    rw [he] at hp
    simp at hp

/-- C7: no input can change the channel count: the parser always returns
numChannels 1. -/
theorem parse_numChannels_always_one (s : List Char) :
    (parseMimeType s).numChannels = 1 := by
  unfold parseMimeType
  rw [foldl_applyRate_numChannels, applyFormat_numChannels]
  rfl

/-- C8: for every payload length and descriptor of values fitting their
integer widths, the synthesizer has no failure path: it returns a
44-byte header. -/
theorem wav_header_no_failure (L ch r bits : Nat)
    (hch0 : 0 < ch) (hr0 : 0 < r) (hbits0 : 0 < bits)
    (hch : ch ≤ 65535) (hbits : bits ≤ 65535) (hr : r ≤ 4294967295)
    (hL : 36 + L ≤ 4294967295) (hba : ch * bits ≤ 524280)
    (hbr : r * ch * bits ≤ 34359738360) :
    ∃ hdr, createWavHeader L
        { numChannels := (ch : Int), sampleRate := some (r : Int),
          bitsPerSample := (bits : Int) } = some hdr ∧ hdr.length = 44 :=
  ⟨_, createWavHeader_eq L ch r bits hch hbits hr hL hba hbr,
   by simp [u32Bytes, u16Bytes]⟩

/-- C8 witness: a 24-bit stereo descriptor at 44100 Hz with a seven-byte
payload synthesizes without failing. -/
theorem wav_header_no_failure_witness :
    ∃ hdr, createWavHeader 7
        { numChannels := ((2 : Nat) : Int), sampleRate := some ((44100 : Nat) : Int),
          bitsPerSample := ((24 : Nat) : Int) } = some hdr ∧ hdr.length = 44 :=
  wav_header_no_failure 7 2 44100 24 (by decide) (by decide) (by decide) (by decide)
    (by decide) (by decide) (by decide) (by decide) (by decide)

/-- C9: the driver prologue fails with the usage error when the content
argument is missing or blank after trimming, and with the configuration
error when the content is fine but the credential is absent or empty;
in both cases no PreparedRequest exists, so the network call and all
file writes, which happen strictly after it, never occur. -/
theorem driver_fail_fast :
    (∀ (argv : List (List Char)) (key : Option (List Char)),
      (∀ c, argv.get? 2 = some c → jsTrim c = []) →
      mainUntilRequest argv key = Except.error CliError.missingContent) ∧
    (∀ (argv : List (List Char)) (key : Option (List Char)) (c : List Char),
      argv.get? 2 = some c → jsTrim c ≠ [] → (key = none ∨ key = some []) →
      mainUntilRequest argv key = Except.error CliError.missingApiKey) := by
  constructor
  · intro argv key h
    cases hg : argv.get? 2 with
    | none =>
      unfold mainUntilRequest
      rw [getArgs_missing hg]
    | some c =>
      unfold mainUntilRequest
      rw [getArgs_blank hg (h c hg)]
  · intro argv key c hg ht hk
    unfold mainUntilRequest
    rw [getArgs_ok hg ht]
    rcases hk with rfl | rfl
    · rfl
    · simp

/-- C9 witness: an empty argument vector fails with the usage error, and
a present content argument with no credential fails with the
configuration error. -/
theorem driver_fail_fast_witness :
    mainUntilRequest [] none = Except.error CliError.missingContent ∧
    mainUntilRequest ["node".toList, "script".toList, "hello".toList] none =
      Except.error CliError.missingApiKey :=
  ⟨driver_fail_fast.1 [] none (fun _ hc => nomatch hc),
   driver_fail_fast.2 ["node".toList, "script".toList, "hello".toList] none
     "hello".toList (by decide) (by decide) (Or.inl rfl)⟩

/-- C10: numeric fields use leading-digit prefix parsing: digits after L
followed by non-digit junk still set the bit depth, and a rate value of
digits followed by junk still sets the sample rate; and a parse that
fails (keeping the default bit depth or making the rate not-a-number)
can only happen when the text does not start with a digit. -/
theorem parse_leading_digits :
    (∀ ds rest rs rrest : List Char, ds ≠ [] → (∀ c ∈ ds, isDigitChar c = true) →
      rs ≠ [] → (∀ c ∈ rs, isDigitChar c = true) →
      (∀ c ∈ rest, c ≠ ';') → HeadNotDigit rest →
      (∀ c ∈ rrest, c ≠ ';') → HeadNotDigit rrest →
      parseMimeType ("audio/L".toList ++ ds ++ rest ++ ";rate=".toList ++ rs ++ rrest) =
        { numChannels := 1, sampleRate := some ((decVal rs : Nat) : Int),
          bitsPerSample := ((decVal ds : Nat) : Int) }) ∧
    (∀ (v : List Char) (c : Char), jsParseInt v = none → v.head? = some c →
      isDigitChar c = false) := by
  constructor
  · intro ds rest rs rrest hds hdsd hrs hrsd hr1 hr2 hq1 hq2
    have h := parseMimeType_general ds rest rs rrest hds hdsd hrs hrsd hr1 hr2 hq1 hq2
    simpa [List.append_assoc] using h
  · exact fun _ _ h hc => jsParseInt_none_head h hc

/-- C10 witness: audio/L16x;rate=24000Hz takes the leading digits of both
fields. -/
theorem parse_leading_digits_witness :
    parseMimeType "audio/L16x;rate=24000Hz".toList =
      { numChannels := 1, sampleRate := some 24000, bitsPerSample := 16 } := by
  have h := parse_leading_digits.1 ['1', '6'] ['x'] ['2', '4', '0', '0', '0'] ['H', 'z']
    (by decide) (by decide) (by decide) (by decide) (by decide)
    (headNotDigit_cons _ (by decide)) (by decide) (headNotDigit_cons _ (by decide))
  exact h.trans (by decide)

end TTS
